import Mathlib

/-!
Verification of the Obsidian-to-Anki synchronization engine against its
natural-language specification.

The development shallowly embeds the TypeScript sources:
  * `src/src/files-manager.ts` — change detection (`initialiseFiles`),
    request construction (`requests_1`, `requests_2`), response
    reconciliation (`parse_requests_1`) and fingerprint recording
    (`getHashes`);
  * `src/unnamed/part_001` (note parsers) — `AbstractNote`, `Note`
    (block notes), `InlineNote`, `RegexNote`;
  * `src/unnamed/part_000` (plugin entry) — the `scanVault` pass and the
    fingerprint merge.

Text is modelled as `List Char`; JavaScript objects used as string maps are
modelled as association lists with first-occurrence lookup and
replace-or-append assignment, matching object-key semantics for the
duplicate-free key sets built by the code.  External collaborators whose
sources are not in `src/` (the format converter, the obsidian-tag regexp)
are universally quantified parameters, bundled in `Externals`.  Code of the
repository itself that is absent from `src/` (`file.ts`, `anki.ts`,
`constants.ts`) is modelled from the specification; each such definition
carries a doc comment starting `Modelled from the spec:`.
-/

namespace ObsidianToAnki

/-! ## Definitions: the shallow embedding -/

/-- Text is modelled as a list of characters. -/
abbrev Str := List Char

/-- Coerces a Lean string literal to the character-list text model. -/
def str (s : String) : Str := s.data

/-- Lookup in a JS object modelled as an association list: the value at the
first occurrence of the key, or `none` when the key is absent. -/
def lookupD {α : Type} (m : List (Str × α)) (k : Str) : Option α :=
  (m.find? (fun kv => kv.1 == k)).map (·.2)

/-- Models `Object.prototype.hasOwnProperty`. -/
def hasKey {α : Type} (m : List (Str × α)) (k : Str) : Bool :=
  (lookupD m k).isSome

/-- Models JS object assignment `m[k] = v`: replaces the value at the first
occurrence of `k`, or appends a new entry when `k` is absent. -/
def setD {α : Type} : List (Str × α) → Str → α → List (Str × α)
  | [], k, v => [(k, v)]
  | kv :: rest, k, v =>
      if kv.1 == k then (k, v) :: rest else kv :: setD rest k v

/-- Models JS `m[k] += s` on a string-valued object: appends to the stored
string; when `k` is absent, JS coerces `undefined + s`, producing the
string `"undefined" ++ s` under a fresh key. -/
def jsAppendField (m : List (Str × Str)) (k : Str) (s : Str) : List (Str × Str) :=
  match lookupD m k with
  | some v => setD m k (v ++ s)
  | none => setD m k (str "undefined" ++ s)

/-- Models JS `String.prototype.trim`. -/
def jsTrim (s : Str) : Str :=
  ((s.dropWhile Char.isWhitespace).reverse.dropWhile Char.isWhitespace).reverse

/-- Auxiliary accumulator-passing loop for `splitOnChar`. -/
def splitOnCharAux (c : Char) : Str → Str → List Str
  | [], acc => [acc.reverse]
  | x :: xs, acc =>
      if x == c then acc.reverse :: splitOnCharAux c xs []
      else splitOnCharAux c xs (x :: acc)

/-- Models JS `String.prototype.split` with a one-character separator; the
result is never empty. -/
def splitOnChar (c : Char) (s : Str) : List Str := splitOnCharAux c s []

/-- Models JS `String.prototype.includes` (substring containment). -/
def containsSub : Str → Str → Bool
  | [], pat => pat.isEmpty
  | c :: rest, pat => pat.isPrefixOf (c :: rest) || containsSub rest pat

/-- Longest leading digit run of a string. -/
def takeDigits (s : Str) : Str := s.takeWhile Char.isDigit

/-- Value of a digit string, as produced by JS `parseInt` on a `\d+`
capture group. -/
def digitsToNat (ds : Str) : Nat :=
  ds.foldl (fun n c => n * 10 + (c.toNat - 48)) 0

structure Doc where
  path : Str
  text : Str
deriving DecidableEq, Repr

/-- Embeds the selection condition of `FileManager.initialiseFiles`
(lines 185-191): a file is scanned unless the hash store has its path and
the stored fingerprint equals the hash of its current text. -/
def fileSelected (getHash : Str → Str) (file_hashes : List (Str × Str)) (d : Doc) : Bool :=
  !(hasKey file_hashes d.path && (some (getHash d.text) == lookupD file_hashes d.path))

/-- Embeds `FileManager.initialiseFiles`: the sublist of documents selected
for scanning, in document order. -/
def initialiseFiles (getHash : Str → Str) (file_hashes : List (Str × Str))
    (docs : List Doc) : List Doc :=
  docs.filter (fileSelected getHash file_hashes)

def mergeHashes (old updates : List (Str × Str)) : List (Str × Str) :=
  updates.foldl (fun m kv => setD m kv.1 kv.2) old

/-- Fingerprints recorded at the end of a pass: `getHashes` hashes each
scanned file's post-rewrite text (`file.file`), and `scanVault` merges the
result into the persisted map.  `rewrite` abstracts the composite
`scanFile` / `writeIDs` / `removeEmpties` rewriting of a scanned file. -/
def passNewHashes (getHash rewrite : Str → Str) (fh : List (Str × Str))
    (docs : List Doc) : List (Str × Str) :=
  mergeHashes fh
    ((initialiseFiles getHash fh docs).map (fun d => (d.path, getHash (rewrite d.text))))

/-- Vault contents after a pass: a scanned document holds its rewritten
text (`parse_requests_1` lines 314-324 writes it back exactly when it
differs, and otherwise the vault already holds it); an unscanned document
is untouched. -/
def afterPassDocs (getHash rewrite : Str → Str) (fh : List (Str × Str))
    (docs : List Doc) : List Doc :=
  docs.map (fun d =>
    if fileSelected getHash fh d then ⟨d.path, rewrite d.text⟩ else d)

/-- The five per-file sub-request groups built by `requests_1`
(files-manager lines 203-256): add-notes, note-info, update-fields,
delete-notes, and the located-media uploads, each built by mapping over
`ownFiles`. -/
structure Requests1 (α β γ δ ε : Type) where
  addNotes : List α
  noteInfo : List β
  updateFields : List γ
  deleteNotes : List δ
  media : List ε

def buildRequests1 {α β γ δ ε : Type} (fAdd : Doc → α) (fInfo : Doc → β)
    (fUpd : Doc → γ) (fDel : Doc → δ) (fMedia : Doc → List ε)
    (ownFiles : List Doc) : Requests1 α β γ δ ε :=
  ⟨ownFiles.map fAdd, ownFiles.map fInfo, ownFiles.map fUpd, ownFiles.map fDel,
    (ownFiles.map fMedia).flatten⟩

/-- The three per-file sub-request groups built by `requests_2`
(files-manager lines 338-360): deck moves, tag clears, tag adds. -/
structure Requests2 (α β γ : Type) where
  changeDecks : List α
  clearTags : List β
  addTags : List γ

def buildRequests2 {α β γ : Type} (fDeck : Doc → α) (fClear : Doc → β)
    (fAddT : Doc → γ) (ownFiles : List Doc) : Requests2 α β γ :=
  ⟨ownFiles.map fDeck, ownFiles.map fClear, ownFiles.map fAddT⟩

/-- Error sentinel for a cloze-typed note with no cloze (part_001 line 18). -/
def CLOZE_ERROR : Nat := 42

/-- Error sentinel for a schema absent from the registry (part_001 line 19). -/
def NOTE_TYPE_ERROR : Nat := 69

/-- The `TAG_PREFIX` constant of part_001 line 14: the string `"Tags: "`. -/
def tagMarker : Str := str "Tags: "

/-- Tries the pattern `(?:<!--)?ID: (\d+)` at the head of `s`.  JS regex
alternation first tries the comment-prefixed form, then the bare form
(which can only succeed when the first did not, since the two require
different head characters); on success the captured digit run is
returned. -/
def idMatchAt (s : Str) : Option Str :=
  if (str "<!--ID: ").isPrefixOf s then
    let ds := takeDigits (s.drop 8)
    if ds.isEmpty then none else some ds
  else if (str "ID: ").isPrefixOf s then
    let ds := takeDigits (s.drop 4)
    if ds.isEmpty then none else some ds
  else none

/-- Leftmost-match scan for `(?:<!--)?ID: (\d+)`: the match start index and
the captured digits, as produced by `RegExp.prototype.exec`. -/
def idFindAux : Str → Nat → Option (Nat × Str)
  | [], _ => none
  | c :: rest, i =>
      match idMatchAt (c :: rest) with
      | some ds => some (i, ds)
      | none => idFindAux rest (i + 1)

def idFind (s : Str) : Option (Nat × Str) := idFindAux s 0

/-- An AnkiConnect note payload (`AnkiConnectNote`): deck, model, field
map and tag list. -/
structure AnkiNote where
  deckName : Str
  modelName : Str
  fields : List (Str × Str)
  tags : List Str
deriving DecidableEq, Repr

/-- The slice of `FileData` the parsers read: the note template, the
file-link and context field configuration, and the obsidian-tag switch. -/
structure FileData where
  template : AnkiNote
  file_link_fields : List (Str × Str)
  context_fields : List (Str × Str)
  add_obs_tags : Bool

/-- External collaborators of the parsers, consumed as opaque functions:
the `FormatConverter` (`format.ts`) and the obsidian-tag regexp
(`OBS_TAG_REGEXP` from `constants.ts`), none of which are in `src/`.
`obsTagMatches` yields the first capture group of each match of the tag
regexp; `obsTagStrip` is `replace(OBS_TAG_REGEXP, '')`. -/
structure Externals where
  format : Str → Bool → Bool → Str
  formatWithUrl : AnkiNote → Str → Option Str → AnkiNote
  formatWithFrozen : AnkiNote → List (Str × Str) → AnkiNote
  obsTagMatches : Str → List Str
  obsTagStrip : Str → Str

/-- Modelled from the spec: `ANKI_CLOZE_REGEXP` comes from `constants.ts`,
which is absent from `src/`; the spec describes cloze markup as the
pattern `\x7b\x7bc<N>::...\x7d\x7d`.  This checks for that pattern at the
head of the string. -/
def clozeAt (s : Str) : Bool :=
  match s with
  | '{' :: '{' :: 'c' :: rest =>
      let ds := takeDigits rest
      !ds.isEmpty && (str "::").isPrefixOf (rest.drop ds.length) &&
        containsSub (rest.drop (ds.length + 2)) ['}', '}']
  | _ => false

/-- Modelled from the spec: `matchCloze` of part_001 line 28, with the
cloze regexp test expanded to a scan for the cloze pattern. -/
def matchCloze : Str → Bool
  | [] => false
  | c :: rest => clozeAt (c :: rest) || matchCloze rest

/-- Embeds `containsCloze` (part_001 lines 35-36): some field of the note
contains cloze markup. -/
def containsCloze (n : AnkiNote) : Bool :=
  n.fields.any (fun kv => matchCloze kv.2)

/-- Embeds the cloze-validation tail of `AbstractNote.parse` (part_001
lines 125-130): a final template whose model is exactly `"Cloze"` with no
cloze markup in any field is returned with the `CLOZE_ERROR` sentinel in
place of the parsed identifier. -/
def finishParse (identifier : Option Nat) (template : AnkiNote) :
    AnkiNote × Option Nat :=
  if template.modelName == str "Cloze" && !containsCloze template then
    (template, some CLOZE_ERROR)
  else (template, identifier)

/-- Embeds `AbstractNote.parse` (part_001 lines 86-131), shared by `Note`
and `InlineNote`.  The parser state computed by the constructor is passed
in (`note_type`, `no_note_type`, `identifier`, `tags`), together with the
result of `getFields`, which the source only evaluates after the
unknown-schema early return. -/
def abstractParse (ext : Externals) (note_type : Str) (no_note_type : Bool)
    (identifier : Option Nat) (tags : List Str) (fieldsResult : List (Str × Str))
    (deck url : Str) (frozen_fields_dict : List (Str × Str)) (data : FileData)
    (context : Str) : AnkiNote × Option Nat :=
  let template := { data.template with modelName := note_type }
  if no_note_type then (template, some NOTE_TYPE_ERROR) else
  let template := { template with fields := fieldsResult }
  let template :=
    if url.isEmpty then template
    else ext.formatWithUrl template url (lookupD data.file_link_fields note_type)
  let template :=
    if frozen_fields_dict.isEmpty then template
    else ext.formatWithFrozen template frozen_fields_dict
  let template :=
    if context.isEmpty then template
    else { template with fields := (jsAppendField template.fields
        ((lookupD data.context_fields note_type).getD (str "undefined")) context) }
  let pair :=
    if data.add_obs_tags then
      ({ template with
          fields := template.fields.map (fun kv => (kv.1, ext.obsTagStrip kv.2)) },
        tags ++ (template.fields.map (fun kv => ext.obsTagMatches kv.2)).flatten)
    else (template, tags)
  let template := pair.1
  let template := { template with tags := template.tags ++ pair.2, deckName := deck }
  finishParse identifier template

/-- State computed by the `Note` constructor (via `AbstractNote`,
part_001 lines 54-78). -/
structure BlockNoteState where
  split_text : List Str
  identifier : Option Nat
  tags : List Str
  note_type : Str
  no_note_type : Bool
  field_names : List Str
  current_field : Str
deriving DecidableEq, Repr

/-- Embeds `Note.getIdentifier` (lines 139-145): when the last line matches
the ID regexp it is popped and its captured digits are parsed. -/
def noteGetIdentifier (lines : List Str) : Option Nat × List Str :=
  match lines.getLast? with
  | none => (none, lines)
  | some last =>
      match idFind last with
      | some (_, ds) => (some (digitsToNat ds), lines.dropLast)
      | none => (none, lines)

/-- Embeds `Note.getTags` (lines 147-153): when the last line starts with
`"Tags: "` it is popped and split on spaces after the marker. -/
def noteGetTags (lines : List Str) : List Str × List Str :=
  match lines.getLast? with
  | none => ([], lines)
  | some last =>
      if tagMarker.isPrefixOf last then
        (splitOnChar ' ' (last.drop tagMarker.length), lines.dropLast)
      else ([], lines)

/-- Embeds the `AbstractNote` constructor for `Note` (lines 54-78 with the
`Note` overrides): trim, split on newlines, pop the identifier, pop the
tags, read the schema name, and look it up in the registry.  The result is
`none` exactly when `getTags` dereferences the last line of an
already-empty list (a JS `TypeError`, reachable when the note consists of
a single ID line). -/
def mkNote (note_text : Str) (fields_dict : List (Str × List Str)) :
    Option BlockNoteState :=
  let split0 := splitOnChar '\n' (jsTrim note_text)
  let idSplit := noteGetIdentifier split0
  if idSplit.2.isEmpty then none
  else
    let tagSplit := noteGetTags idSplit.2
    let note_type := tagSplit.2.head?.getD (str "undefined")
    match lookupD fields_dict note_type with
    | none => some
        { split_text := tagSplit.2, identifier := idSplit.1, tags := tagSplit.1,
          note_type, no_note_type := true, field_names := [],
          current_field := str "undefined" }
    | some fns => some
        { split_text := tagSplit.2, identifier := idSplit.1, tags := tagSplit.1,
          note_type, no_note_type := false, field_names := fns,
          current_field := fns.head?.getD (str "undefined") }

/-- Embeds `Note.fieldFromLine` (lines 159-169): the first declared field
whose `name:` prefix starts the line claims it; otherwise the line stays
with the current field. -/
def fieldFromLine (field_names : List Str) (current : Str) (line : Str) :
    Str × Str :=
  match field_names.find? (fun f => (f ++ str ":").isPrefixOf line) with
  | some f => (line.drop (f ++ str ":").length, f)
  | none => (line, current)

/-- The field map initialisation shared by all three `getFields`
implementations: every declared field bound to the empty string. -/
def initFields (field_names : List Str) : List (Str × Str) :=
  field_names.foldl (fun m f => setD m f []) []

/-- One iteration of the `Note.getFields` line loop (lines 176-179): the
line is assigned to a field by prefix match and appended with a trailing
newline; the claimed field becomes current. -/
def noteFieldStep (field_names : List Str) (acc : List (Str × Str) × Str)
    (line : Str) : List (Str × Str) × Str :=
  let lf := fieldFromLine field_names acc.2 line
  (jsAppendField acc.1 lf.2 (lf.1 ++ ['\n']), lf.2)

/-- Embeds `Note.getFields` (lines 171-190): initialise every field empty,
assign each body line to a field by prefix match appending a newline, then
trim and format every field. -/
def noteGetFields (ext : Externals) (st : BlockNoteState)
    (curly highlights : Bool) : List (Str × Str) :=
  let folded := (st.split_text.drop 1).foldl (noteFieldStep st.field_names)
    (initFields st.field_names, st.current_field)
  folded.1.map (fun kv =>
    (kv.1, jsTrim (ext.format (jsTrim kv.2)
      (containsSub st.note_type (str "Cloze") && curly) highlights)))

/-- Embeds `Note.parse`: `AbstractNote.parse` applied to the block-note
constructor state and `Note.getFields`. -/
def noteParse (ext : Externals) (st : BlockNoteState) (curly highlights : Bool)
    (deck url : Str) (frozen : List (Str × Str)) (data : FileData)
    (context : Str) : AnkiNote × Option Nat :=
  abstractParse ext st.note_type st.no_note_type st.identifier st.tags
    (noteGetFields ext st curly highlights) deck url frozen data context

/-- State computed by the `InlineNote` constructor.  `text` is the
remaining note text after the identifier, tags and schema token have been
stripped. -/
structure InlineNoteState where
  text : Str
  identifier : Option Nat
  tags : List Str
  note_type : Str
  no_note_type : Bool
  field_names : List Str
  current_field : Str
deriving DecidableEq, Repr

/-- Leftmost-match scan for `Tags: (.*)`: match start index and captured
text (the dot does not cross a newline). -/
def tagsFindAux : Str → Nat → Option (Nat × Str)
  | [], _ => none
  | c :: rest, i =>
      if tagMarker.isPrefixOf (c :: rest) then
        some (i, ((c :: rest).drop tagMarker.length).takeWhile (fun ch => !(ch == '\n')))
      else tagsFindAux rest (i + 1)

def tagsFind (s : Str) : Option (Nat × Str) := tagsFindAux s 0

/-- Tries the pattern `\[(.*?)\]` at the head of `s`: an opening bracket,
a lazily matched run without newline, and the nearest closing bracket; on
success returns the capture and the whole-match length. -/
def bracketAt (s : Str) : Option (Str × Nat) :=
  match s with
  | [] => none
  | c :: rest =>
      if c == '[' then
        let inner := rest.takeWhile (fun ch => !(ch == ']') && !(ch == '\n'))
        match (rest.drop inner.length).head? with
        | some ']' => some (inner, inner.length + 2)
        | _ => none
      else none

/-- Leftmost-match scan for `\[(.*?)\]`: match start index, capture, and
whole-match length. -/
def typeFindAux : Str → Nat → Option (Nat × Str × Nat)
  | [], _ => none
  | c :: rest, i =>
      match bracketAt (c :: rest) with
      | some capLen => some (i, capLen.1, capLen.2)
      | none => typeFindAux rest (i + 1)

def typeFind (s : Str) : Option (Nat × Str × Nat) := typeFindAux s 0

/-- Embeds `InlineNote.getIdentifier` (lines 202-210): on a match the text
up to the match index is kept (trimmed) and the digits are parsed. -/
def inlineGetIdentifier (text : Str) : Option Nat × Str :=
  match idFind text with
  | some ids => (some (digitsToNat ids.2), jsTrim (text.take ids.1))
  | none => (none, text)

/-- Embeds `InlineNote.getTags` (lines 212-220). -/
def inlineGetTags (text : Str) : List Str × Str :=
  match tagsFind text with
  | some icap => (splitOnChar ' ' icap.2, jsTrim (text.take icap.1))
  | none => ([], text)

/-- Embeds the `AbstractNote` constructor for `InlineNote`.  The result is
`none` exactly when `getNoteType` (lines 222-226) dereferences the `null`
result of the type-regexp match — the JS `TypeError` of claim C9. -/
def mkInlineNote (note_text : Str) (fields_dict : List (Str × List Str)) :
    Option InlineNoteState :=
  let text0 := jsTrim note_text
  let idText := inlineGetIdentifier text0
  let tagText := inlineGetTags idText.2
  match typeFind tagText.2 with
  | none => none
  | some (i, cap, len) =>
      let text3 := tagText.2.drop (i + len)
      match lookupD fields_dict cap with
      | none => some
          { text := text3, identifier := idText.1, tags := tagText.1,
            note_type := cap, no_note_type := true, field_names := [],
            current_field := str "undefined" }
      | some fns => some
          { text := text3, identifier := idText.1, tags := tagText.1,
            note_type := cap, no_note_type := false, field_names := fns,
            current_field := fns.head?.getD (str "undefined") }

/-- One iteration of the `InlineNote.getFields` word loop (lines 233-241):
a word equal to `name:` for a declared field switches the current field
and is replaced by the empty word; the word then appends (with a trailing
space) to the current field. -/
def inlineFieldStep (field_names : List Str) (acc : List (Str × Str) × Str)
    (word : Str) : List (Str × Str) × Str :=
  match field_names.find? (fun f => word == f ++ str ":") with
  | some f => (jsAppendField acc.1 f [' '], f)
  | none => (jsAppendField acc.1 acc.2 (word ++ [' ']), acc.2)

/-- Embeds `InlineNote.getFields` (lines 228-252): whitespace-tokenized
words assigned by the word loop; finally each field is trimmed and
formatted. -/
def inlineGetFields (ext : Externals) (st : InlineNoteState)
    (curly highlights : Bool) : List (Str × Str) :=
  let folded := (splitOnChar ' ' st.text).foldl (inlineFieldStep st.field_names)
    (initFields st.field_names, st.current_field)
  folded.1.map (fun kv =>
    (kv.1, jsTrim (ext.format (jsTrim kv.2)
      (containsSub st.note_type (str "Cloze") && curly) highlights)))

/-- Embeds `InlineNote.parse`: `AbstractNote.parse` applied to the
inline-note constructor state and `InlineNote.getFields`. -/
def inlineParse (ext : Externals) (st : InlineNoteState) (curly highlights : Bool)
    (deck url : Str) (frozen : List (Str × Str)) (data : FileData)
    (context : Str) : AnkiNote × Option Nat :=
  abstractParse ext st.note_type st.no_note_type st.identifier st.tags
    (inlineGetFields ext st curly highlights) deck url frozen data context

/-- State computed by the `RegexNote` constructor. -/
structure RegexNoteState where
  matchGroups : List (Option Str)
  note_type : Str
  identifier : Option Nat
  tags : List Str
  field_names : List Str
deriving DecidableEq, Repr

/-- Embeds the `RegexNote` constructor (lines 266-284).  `m0` is the
regexp match array — `match[0]` followed by the capture groups, `none`
standing for an unmatched optional group.  When `id` is set the last
element is popped and parsed (`parseInt` of an undefined group yields
`NaN`, modelled as `none`); when `tags` is set the new last element is
popped and split after the `"Tags: "` marker (an undefined group is
modelled as the empty string).  `fields_dict[note_type]` is read with no
registry check; the absent case — `undefined`, over which `getFields`
would throw — is modelled as `[]`. -/
def mkRegexNote (m0 : List (Option Str)) (note_type : Str)
    (fields_dict : List (Str × List Str)) (tags id : Bool) : RegexNoteState :=
  let ident :=
    if id then
      (m0.getLast?.getD none).bind (fun s =>
        let ds := takeDigits s
        if ds.isEmpty then none else some (digitsToNat ds))
    else none
  let m1 := if id then m0.dropLast else m0
  let tg :=
    if tags then
      splitOnChar ' ' (((m1.getLast?.getD none).getD []).drop tagMarker.length)
    else []
  let m2 := if tags then m1.dropLast else m1
  { matchGroups := m2, note_type, identifier := ident, tags := tg,
    field_names := (lookupD fields_dict note_type).getD [] }

/-- Embeds `RegexNote.getFields` (lines 286-304): every declared field is
initialised empty, then the capture groups are assigned positionally (a
falsy group yields the empty string; a position beyond the declared fields
lands on the JS key `"undefined"`); finally each field is trimmed and
formatted. -/
def regexGetFields (ext : Externals) (st : RegexNoteState)
    (curly highlights : Bool) : List (Str × Str) :=
  let assigned := (st.matchGroups.drop 1).enum.foldl
    (fun m p => setD m ((st.field_names.get? p.1).getD (str "undefined")) (p.2.getD []))
    (initFields st.field_names)
  assigned.map (fun kv =>
    (kv.1, jsTrim (ext.format (jsTrim kv.2)
      (containsSub st.note_type (str "Cloze") && curly) highlights)))

/-- Embeds `RegexNote.parse` (lines 306-330).  Unlike `AbstractNote.parse`
it performs no unknown-schema early return, no obsidian-tag extraction and
no cloze validation: it always returns the constructor's identifier. -/
def regexParse (ext : Externals) (st : RegexNoteState) (curly highlights : Bool)
    (deck url : Str) (frozen : List (Str × Str)) (data : FileData)
    (context : Str) : AnkiNote × Option Nat :=
  let template := { data.template with modelName := st.note_type }
  let template := { template with fields := regexGetFields ext st curly highlights }
  let template :=
    if url.isEmpty then template
    else ext.formatWithUrl template url (lookupD data.file_link_fields st.note_type)
  let template :=
    if frozen.isEmpty then template
    else ext.formatWithFrozen template frozen
  let template :=
    if context.isEmpty then template
    else { template with fields := (jsAppendField template.fields
        ((lookupD data.context_fields st.note_type).getD (str "undefined")) context) }
  let template := { template with tags := template.tags ++ st.tags, deckName := deck }
  (template, st.identifier)

/-- Modelled from the spec: create-request construction (`AllFile.getAddNotes`
in `file.ts`, absent from `src/`).  The spec batches "for every new, valid
record across every changed document, a create-record request" and flagged
records are "excluded from remote-write construction", so exactly the
records with no identifier are emitted. -/
def buildCreateRequests (records : List (AnkiNote × Option Nat)) : List AnkiNote :=
  (records.filter (fun r => r.2 == none)).map Prod.fst

/-- Modelled from the spec: span rewriting (`AllFile.writeIDs` in `file.ts`,
absent from `src/`).  The scanner serializes "each record's final
identifier ... back into its original span's text position"; only a record
that was sent as a create request (identifier absent) can receive a
response identifier, and a record receiving none leaves its span
untouched. -/
def spanAfterWriteback (r : AnkiNote × Option Nat) (createResponse : Option Nat)
    (mkIdText : Nat → Str) (span : Str) : Str :=
  if r.2 == none then
    match createResponse with
    | some n => span ++ mkIdText n
    | none => span
  else span

/-- A trivial instantiation of the external collaborators: the identity
format converter, no-op injectors and no obsidian tags. -/
def trivialExt : Externals :=
  { format := fun s _ _ => s,
    formatWithUrl := fun n _ _ => n,
    formatWithFrozen := fun n _ => n,
    obsTagMatches := fun _ => [],
    obsTagStrip := fun s => s }

/-- A small schema registry holding the stock `Basic` and `Cloze`
schemas. -/
def sampleDict : List (Str × List Str) :=
  [(str "Basic", [str "Front", str "Back"]),
   (str "Cloze", [str "Text", str "Back Extra"])]

/-- File data with an empty note template and all optional features off. -/
def sampleData : FileData :=
  { template := { deckName := str "Default", modelName := [], fields := [], tags := [] },
    file_link_fields := [], context_fields := [], add_obs_tags := false }

/-- The parser state of the block note `"Cloze\nThis has no cloze"` under
`sampleDict`. -/
def clozeBlockSt : BlockNoteState :=
  { split_text := [str "Cloze", str "This has no cloze"], identifier := none,
    tags := [], note_type := str "Cloze", no_note_type := false,
    field_names := [str "Text", str "Back Extra"],
    current_field := str "Text" }

/-- The parser state of the inline note `"[Cloze] no markup here"` under
`sampleDict`. -/
def clozeInlineSt : InlineNoteState :=
  { text := str " no markup here", identifier := none, tags := [],
    note_type := str "Cloze", no_note_type := false,
    field_names := [str "Text", str "Back Extra"],
    current_field := str "Text" }

/-- An AnkiConnect response element (`addNoteResponse`, files-manager
lines 17-20): per the remote-transport contract of the spec (§6) an
element is either a result with a null error or a null result with an
error string. -/
structure AnkiResponse (α : Type) where
  result : Option α
  error : Option Str
deriving DecidableEq, Repr

/-- Modelled from the spec: `AnkiConnect.parse` (`anki.ts`, absent from
`src/`) throws the error of an element whose `error` is non-null and
otherwise returns its `result`. -/
def ankiParse {α : Type} (r : AnkiResponse α) : Except Str (Option α) :=
  match r.error with
  | some e => Except.error e
  | none => Except.ok r.result

/-- Embeds the per-record create-response loop of `parse_requests_1`
(lines 285-302): each element is parsed; on success the identifier is
pushed, and a thrown per-item error is caught, logged and the element's
(null) `result` is pushed instead. -/
def processCreateResponses (rs : List (AnkiResponse Nat)) : List (Option Nat) :=
  rs.map (fun r =>
    match ankiParse r with
    | Except.ok v => v
    | Except.error _ => r.result)

/-- Embeds the outer per-file loop (lines 275-303): `note_ids` is computed
for each file from that file's own response list. -/
def processAllCreateResponses (files : List (List (AnkiResponse Nat))) :
    List (List (Option Nat)) :=
  files.map processCreateResponses

/-- The per-file state the write-back loop reads: vault path, the text as
read (`original_file`), and the current text (`file`) that `writeIDs` and
`removeEmpties` go on to mutate. -/
structure OwnFileState where
  path : Str
  original_file : Str
  file : Str
deriving DecidableEq, Repr

/-- Embeds the write-back loop of `parse_requests_1` (lines 314-324): for
each file the rewritten text is computed (`rewriteFile` abstracts the
`writeIDs` / `removeEmpties` mutations of `file.ts`, absent from `src/`)
and the file is written to the vault iff it differs from the original. -/
def writeBackActions (rewriteFile : OwnFileState → Str)
    (files : List OwnFileState) : List (Str × Str) :=
  files.filterMap (fun f =>
    if rewriteFile f = f.original_file then none
    else some (f.path, rewriteFile f))

/-- Modelled from the spec: identifier write-back splices new text into a
span position ("serializing each record's final identifier ... back into
its original span's text position"); `insertAt text ins p` inserts `ins`
at position `p`. -/
def insertAt (text ins : Str) (p : Nat) : Str :=
  text.take p ++ ins ++ text.drop p

/-- Number of entries of the field map carrying key `k`. -/
def countKey (m : List (Str × Str)) (k : Str) : Nat :=
  (m.filter (fun kv => kv.1 == k)).length

/-- The parser state of the block note `"Basic\nhello"` under
`sampleDict`. -/
def basicBlockSt : BlockNoteState :=
  { split_text := [str "Basic", str "hello"], identifier := none, tags := [],
    note_type := str "Basic", no_note_type := false,
    field_names := [str "Front", str "Back"], current_field := str "Front" }

/-- The parser state of the inline note `"[Basic] hello there"` under
`sampleDict`. -/
def basicInlineSt : InlineNoteState :=
  { text := str " hello there", identifier := none, tags := [],
    note_type := str "Basic", no_note_type := false,
    field_names := [str "Front", str "Back"], current_field := str "Front" }

/-! ## Theorems -/

/-- Claim C2: a document is selected for scanning iff the sync state holds
no fingerprint for its path, or the stored fingerprint differs from the
hash of its current raw text; a document whose stored fingerprint equals
the hash of its text is never scanned. -/
theorem change_detection_shouldScan_iff (getHash : Str → Str)
    (file_hashes : List (Str × Str)) (d : Doc) :
    (fileSelected getHash file_hashes d = true ↔
      (lookupD file_hashes d.path = none ∨
        ∃ h, lookupD file_hashes d.path = some h ∧ h ≠ getHash d.text)) ∧
    (lookupD file_hashes d.path = some (getHash d.text) →
      fileSelected getHash file_hashes d = false) := by
  unfold fileSelected hasKey
  cases hl : lookupD file_hashes d.path with
  | none => simp [hl]
  | some h =>
      simp only [hl, Option.isSome_some, Bool.true_and, Bool.not_eq_true',
        Option.some.injEq]
      constructor
      · constructor
        · intro hb
          right
          refine ⟨h, rfl, ?_⟩
          intro heq
          rw [heq] at hb
          simp at hb
        · intro hb
          rcases hb with hb | ⟨h', hh', hne⟩
          · exact absurd hb (by simp)
          · subst hh'
            simp only [beq_eq_false_iff_ne, ne_eq, Option.some.injEq]
            exact fun hc => hne hc.symm
      · intro hb
        subst hb
        simp

/-- Witness for claim C2: a matching stored fingerprint suppresses the
scan, and an absent fingerprint forces it. -/
theorem change_detection_shouldScan_iff_witness :
    fileSelected id [(str "a", str "x")] ⟨str "a", str "x"⟩ = false ∧
    fileSelected id [] ⟨str "a", str "x"⟩ = true := by
  have h1 := change_detection_shouldScan_iff id [(str "a", str "x")]
    ⟨str "a", str "x"⟩
  have h2 := change_detection_shouldScan_iff id [] ⟨str "a", str "x"⟩
  exact ⟨h1.2 (by decide), h2.1.mpr (Or.inl (by decide))⟩

theorem lookupD_cons {α : Type} (kv : Str × α) (m : List (Str × α)) (k : Str) :
    lookupD (kv :: m) k = if kv.1 == k then some kv.2 else lookupD m k := by
  by_cases h : (kv.1 == k) = true
  · simp [lookupD, List.find?_cons_of_pos _ h, h]
  · simp [lookupD, List.find?_cons_of_neg _ h, h]

theorem lookupD_setD_self {α : Type} (m : List (Str × α)) (k : Str) (v : α) :
    lookupD (setD m k v) k = some v := by
  induction m with
  | nil => simp [setD, lookupD_cons]
  | cons kv rest ih =>
      simp only [setD]
      by_cases h : (kv.1 == k) = true
      · rw [if_pos h, lookupD_cons]
        simp
      · rw [if_neg h, lookupD_cons, if_neg ?_]
        · exact ih
        · intro hc
          exact h hc

theorem lookupD_setD_ne {α : Type} (m : List (Str × α)) (k k' : Str) (v : α)
    (h : k' ≠ k) : lookupD (setD m k v) k' = lookupD m k' := by
  have hk : (k == k') = false := by
    simp only [beq_eq_false_iff_ne, ne_eq]
    exact fun hc => h hc.symm
  induction m with
  | nil => simp [setD, lookupD_cons, hk, lookupD]
  | cons kv rest ih =>
      simp only [setD]
      by_cases hh : (kv.1 == k) = true
      · have he : kv.1 = k := eq_of_beq hh
        rw [if_pos hh, lookupD_cons, lookupD_cons, he, hk]
        simp [hk]
      · rw [if_neg hh, lookupD_cons, lookupD_cons, ih]

theorem lookupD_mergeHashes_not_mem (old updates : List (Str × Str)) (k : Str)
    (h : k ∉ updates.map Prod.fst) :
    lookupD (mergeHashes old updates) k = lookupD old k := by
  induction updates generalizing old with
  | nil => rfl
  | cons kv rest ih =>
      simp only [List.map_cons, List.mem_cons, not_or] at h
      simp only [mergeHashes, List.foldl_cons]
      rw [show (List.foldl (fun m kv => setD m kv.1 kv.2) (setD old kv.1 kv.2) rest)
            = mergeHashes (setD old kv.1 kv.2) rest from rfl]
      rw [ih (setD old kv.1 kv.2) h.2]
      exact lookupD_setD_ne old kv.1 k kv.2 h.1

theorem lookupD_mergeHashes_mem (old updates : List (Str × Str)) (k : Str) (v : Str)
    (hnd : (updates.map Prod.fst).Nodup) (hm : (k, v) ∈ updates) :
    lookupD (mergeHashes old updates) k = some v := by
  induction updates generalizing old with
  | nil => cases hm
  | cons kv rest ih =>
      simp only [List.map_cons, List.nodup_cons] at hnd
      rcases List.mem_cons.mp hm with heq | hmem
      · subst heq
        simp only [mergeHashes, List.foldl_cons]
        rw [show (List.foldl (fun m kv => setD m kv.1 kv.2) (setD old k v) rest)
              = mergeHashes (setD old k v) rest from rfl]
        rw [lookupD_mergeHashes_not_mem (setD old k v) rest k hnd.1]
        exact lookupD_setD_self old k v
      · simp only [mergeHashes, List.foldl_cons]
        exact ih (setD old kv.1 kv.2) hnd.2 hmem

/-- Claim C1: after a full pass records the fingerprints of the
post-rewrite texts, a second pass on the unchanged document set and sync
state selects no document for scanning, so none of the per-file create,
update, delete, media, deck or tag operations is built. -/
theorem second_pass_zero_writes (getHash rewrite : Str → Str)
    (fh : List (Str × Str)) (docs : List Doc)
    (hnd : (docs.map Doc.path).Nodup) :
    initialiseFiles getHash (passNewHashes getHash rewrite fh docs)
        (afterPassDocs getHash rewrite fh docs) = [] ∧
    (∀ {α β γ δ ε : Type} (fa : Doc → α) (fb : Doc → β) (fc : Doc → γ)
        (fd : Doc → δ) (fe : Doc → List ε),
      buildRequests1 fa fb fc fd fe
        (initialiseFiles getHash (passNewHashes getHash rewrite fh docs)
          (afterPassDocs getHash rewrite fh docs)) = ⟨[], [], [], [], []⟩) ∧
    (∀ {α β γ : Type} (fa : Doc → α) (fb : Doc → β) (fc : Doc → γ),
      buildRequests2 fa fb fc
        (initialiseFiles getHash (passNewHashes getHash rewrite fh docs)
          (afterPassDocs getHash rewrite fh docs)) = ⟨[], [], []⟩) := by
  have hupdnd :
      (((initialiseFiles getHash fh docs).map
        (fun d => (d.path, getHash (rewrite d.text)))).map Prod.fst).Nodup := by
    rw [List.map_map]
    have hsub : (initialiseFiles getHash fh docs).Sublist docs :=
      List.filter_sublist docs
    exact (hsub.map Doc.path).nodup hnd
  have hmain : initialiseFiles getHash (passNewHashes getHash rewrite fh docs)
      (afterPassDocs getHash rewrite fh docs) = [] := by
    unfold initialiseFiles afterPassDocs
    rw [List.filter_eq_nil_iff]
    intro d' hd'
    rcases List.mem_map.mp hd' with ⟨d, hd, hd'eq⟩
    by_cases hsel : fileSelected getHash fh d = true
    · subst hd'eq
      rw [if_pos hsel]
      have hmem : (d.path, getHash (rewrite d.text)) ∈
          (initialiseFiles getHash fh docs).map
            (fun d => (d.path, getHash (rewrite d.text))) := by
        exact List.mem_map_of_mem _ (List.mem_filter.mpr ⟨hd, hsel⟩)
      have hlook : lookupD (passNewHashes getHash rewrite fh docs) d.path
          = some (getHash (rewrite d.text)) :=
        lookupD_mergeHashes_mem fh _ _ _ hupdnd hmem
      simp [fileSelected, hasKey, hlook]
    · subst hd'eq
      rw [if_neg hsel]
      have hnotm : d.path ∉
          ((initialiseFiles getHash fh docs).map
            (fun d => (d.path, getHash (rewrite d.text)))).map Prod.fst := by
        rw [List.map_map]
        intro hc
        rcases List.mem_map.mp hc with ⟨e, he, hpe⟩
        have hed : e = d := by
          have hinj := List.inj_on_of_nodup_map hnd
          exact hinj ((List.filter_sublist docs).mem he) hd hpe
        subst hed
        exact hsel (List.mem_filter.mp he).2
      have hlook : lookupD (passNewHashes getHash rewrite fh docs) d.path
          = lookupD fh d.path :=
        lookupD_mergeHashes_not_mem fh _ _ hnotm
      simp only [fileSelected, hasKey, hlook, Bool.not_eq_true'] at hsel ⊢
      simpa using hsel
  refine ⟨hmain, ?_, ?_⟩
  · intro α β γ δ ε fa fb fc fd fe
    rw [hmain]
    rfl
  · intro α β γ fa fb fc
    rw [hmain]
    rfl

/-- Witness for claim C1 at a concrete one-document vault. -/
theorem second_pass_zero_writes_witness :
    initialiseFiles id (passNewHashes id id [] [⟨str "a", str "x"⟩])
      (afterPassDocs id id [] [⟨str "a", str "x"⟩]) = [] :=
  (second_pass_zero_writes id id [] [⟨str "a", str "x"⟩] (by decide)).1

theorem abstractParse_known_schema (ext : Externals) (nt : Str)
    (id0 : Option Nat) (tags0 : List Str) (fr : List (Str × Str))
    (deck url : Str) (froz : List (Str × Str)) (data : FileData) (ctx : Str) :
    ∃ t, abstractParse ext nt false id0 tags0 fr deck url froz data ctx
      = finishParse id0 t :=
  ⟨_, rfl⟩

theorem abstractParse_unknown_schema (ext : Externals) (nt : Str)
    (id0 : Option Nat) (tags0 : List Str) (fr : List (Str × Str))
    (deck url : Str) (froz : List (Str × Str)) (data : FileData) (ctx : Str) :
    abstractParse ext nt true id0 tags0 fr deck url froz data ctx
      = ({ data.template with modelName := nt }, some NOTE_TYPE_ERROR) :=
  rfl

theorem finishParse_cloze (id0 : Option Nat) (t : AnkiNote)
    (hm : (finishParse id0 t).1.modelName = str "Cloze")
    (hc : containsCloze (finishParse id0 t).1 = false) :
    (finishParse id0 t).2 = some CLOZE_ERROR := by
  have ht1 : (finishParse id0 t).1 = t := by
    unfold finishParse
    split <;> rfl
  rw [ht1] at hm hc
  unfold finishParse
  rw [if_pos]
  rw [hm, hc]
  simp

theorem bracketAt_none (s : Str) (h : '[' ∉ s) : bracketAt s = none := by
  cases s with
  | nil => rfl
  | cons c rest =>
      have hc : ¬(c == '[') = true := by
        simp only [beq_iff_eq]
        intro hcc
        exact h (hcc ▸ List.mem_cons_self c rest)
      simp only [bracketAt]
      rw [if_neg hc]

theorem typeFindAux_none (s : Str) (h : '[' ∉ s) :
    ∀ i, typeFindAux s i = none := by
  induction s with
  | nil => intro i; rfl
  | cons c rest ih =>
      intro i
      unfold typeFindAux
      rw [bracketAt_none (c :: rest) h]
      exact ih (fun hm => h (List.mem_cons_of_mem c hm)) (i + 1)

theorem mem_of_mem_jsTrim (c : Char) (s : Str) (h : c ∈ jsTrim s) : c ∈ s := by
  unfold jsTrim at h
  rw [List.mem_reverse] at h
  have h2 := (List.dropWhile_sublist (l := (s.dropWhile Char.isWhitespace).reverse)
    (p := Char.isWhitespace)).mem h
  rw [List.mem_reverse] at h2
  exact (List.dropWhile_sublist (l := s) (p := Char.isWhitespace)).mem h2

theorem mem_of_mem_take (c : Char) (s : Str) (n : Nat) (h : c ∈ s.take n) : c ∈ s :=
  (List.take_sublist n s).mem h

/-- Claim C9: constructing an `InlineNote` from a span containing no
bracketed schema token throws (the constructor result is `none`, the
model of the `TypeError` raised when `getNoteType` dereferences the null
type-regexp match), rather than flagging the record or returning one. -/
theorem inline_without_schema_token_throws (note_text : Str)
    (fields_dict : List (Str × List Str)) (h : '[' ∉ note_text) :
    mkInlineNote note_text fields_dict = none := by
  have h0 : '[' ∉ jsTrim note_text := fun hm => h (mem_of_mem_jsTrim _ _ hm)
  have h1 : '[' ∉ (inlineGetIdentifier (jsTrim note_text)).2 := by
    unfold inlineGetIdentifier
    cases hf : idFind (jsTrim note_text) with
    | none => exact h0
    | some ids =>
        intro hm
        exact h0 (mem_of_mem_take _ _ _ (mem_of_mem_jsTrim _ _ hm))
  have h2 : '[' ∉ (inlineGetTags (inlineGetIdentifier (jsTrim note_text)).2).2 := by
    unfold inlineGetTags
    cases hf : tagsFind (inlineGetIdentifier (jsTrim note_text)).2 with
    | none => exact h1
    | some icap =>
        intro hm
        exact h1 (mem_of_mem_take _ _ _ (mem_of_mem_jsTrim _ _ hm))
  have h3 : typeFind (inlineGetTags (inlineGetIdentifier (jsTrim note_text)).2).2
      = none := typeFindAux_none _ h2 0
  simp only [mkInlineNote, h3]

/-- Witness for claim C9 at a concrete bracket-free span. -/
theorem inline_without_schema_token_throws_witness :
    '[' ∉ str "Front: no schema token here" ∧
      mkInlineNote (str "Front: no schema token here") sampleDict = none :=
  ⟨by decide, inline_without_schema_token_throws _ sampleDict (by decide)⟩

theorem mkNote_unknown_schema (text : Str) (fields_dict : List (Str × List Str))
    (st : BlockNoteState) (hmk : mkNote text fields_dict = some st)
    (hun : lookupD fields_dict st.note_type = none) :
    st.no_note_type = true := by
  simp only [mkNote] at hmk
  split at hmk
  · exact absurd hmk (by simp)
  · split at hmk
    · rw [Option.some_inj] at hmk
      rw [← hmk]
    · rw [Option.some_inj] at hmk
      rw [← hmk] at hun
      simp_all

theorem mkInlineNote_unknown_schema (text : Str)
    (fields_dict : List (Str × List Str)) (st : InlineNoteState)
    (hmk : mkInlineNote text fields_dict = some st)
    (hun : lookupD fields_dict st.note_type = none) :
    st.no_note_type = true := by
  simp only [mkInlineNote] at hmk
  split at hmk
  · exact absurd hmk (by simp)
  · split at hmk
    · rw [Option.some_inj] at hmk
      rw [← hmk]
    · rw [Option.some_inj] at hmk
      rw [← hmk] at hun
      simp_all

/-- Claim C4: a note span whose schema name is not a key of the registry
parses (for both parser variants sharing `AbstractNote`) to a record
flagged `NOTE_TYPE_ERROR`; such a record yields no create request, and its
source span is byte-identical after write-back. -/
theorem unknown_schema_flagged (ext : Externals)
    (fields_dict : List (Str × List Str)) (curly highlights : Bool)
    (deck url : Str) (frozen : List (Str × Str)) (data : FileData)
    (context : Str) :
    (∀ (text : Str) (st : BlockNoteState),
      mkNote text fields_dict = some st →
      lookupD fields_dict st.note_type = none →
      (noteParse ext st curly highlights deck url frozen data context).2
          = some NOTE_TYPE_ERROR ∧
        buildCreateRequests
          [noteParse ext st curly highlights deck url frozen data context] = [] ∧
        (∀ (resp : Option Nat) (mkIdText : Nat → Str) (span : Str),
          spanAfterWriteback
            (noteParse ext st curly highlights deck url frozen data context)
            resp mkIdText span = span)) ∧
    (∀ (text : Str) (st : InlineNoteState),
      mkInlineNote text fields_dict = some st →
      lookupD fields_dict st.note_type = none →
      (inlineParse ext st curly highlights deck url frozen data context).2
          = some NOTE_TYPE_ERROR ∧
        buildCreateRequests
          [inlineParse ext st curly highlights deck url frozen data context] = [] ∧
        (∀ (resp : Option Nat) (mkIdText : Nat → Str) (span : Str),
          spanAfterWriteback
            (inlineParse ext st curly highlights deck url frozen data context)
            resp mkIdText span = span)) := by
  constructor
  · intro text st hmk hun
    have hno := mkNote_unknown_schema text fields_dict st hmk hun
    have hp : noteParse ext st curly highlights deck url frozen data context
        = ({ data.template with modelName := st.note_type }, some NOTE_TYPE_ERROR) := by
      unfold noteParse
      rw [hno]
      exact abstractParse_unknown_schema ext st.note_type st.identifier st.tags _
        deck url frozen data context
    refine ⟨by rw [hp], ?_, ?_⟩
    · rw [hp]
      rfl
    · intro resp mkIdText span
      rw [hp]
      rfl
  · intro text st hmk hun
    have hno := mkInlineNote_unknown_schema text fields_dict st hmk hun
    have hp : inlineParse ext st curly highlights deck url frozen data context
        = ({ data.template with modelName := st.note_type }, some NOTE_TYPE_ERROR) := by
      unfold inlineParse
      rw [hno]
      exact abstractParse_unknown_schema ext st.note_type st.identifier st.tags _
        deck url frozen data context
    refine ⟨by rw [hp], ?_, ?_⟩
    · rw [hp]
      rfl
    · intro resp mkIdText span
      rw [hp]
      rfl

/-- Witness for claim C4 at concrete unknown-schema block and inline
spans. -/
theorem unknown_schema_flagged_witness :
    (noteParse trivialExt
        { split_text := [str "Mystery", str "Front: x"], identifier := none,
          tags := [], note_type := str "Mystery", no_note_type := true,
          field_names := [], current_field := str "undefined" }
        false false (str "Default") [] [] sampleData []).2
      = some NOTE_TYPE_ERROR ∧
    (inlineParse trivialExt
        { text := str " some words", identifier := none, tags := [],
          note_type := str "Mystery", no_note_type := true, field_names := [],
          current_field := str "undefined" }
        false false (str "Default") [] [] sampleData []).2
      = some NOTE_TYPE_ERROR := by
  have h := unknown_schema_flagged trivialExt sampleDict false false
    (str "Default") [] [] sampleData []
  exact ⟨(h.1 (str "Mystery\nFront: x") _ (by decide) (by decide)).1,
    (h.2 (str "[Mystery] some words") _ (by decide) (by decide)).1⟩

/-- Claim C10: the error flags are the plain integers 42 and 69 stored in
the identifier slot: a valid block note whose real remote identifier is 42
parses to an identifier equal to that of a record flagged by the cloze
sentinel, and one whose identifier is 69 to that of an unknown-schema
record; the result type does not distinguish errors from real
identifiers. -/
theorem sentinel_identifier_collision :
    ((mkNote (str "Basic\nFront: x\n<!--ID: 42-->") sampleDict).map
        (fun st => (noteParse trivialExt st false false (str "Default") [] []
          sampleData []).2) = some (some CLOZE_ERROR)) ∧
    ((mkNote (str "Cloze\nThis has no cloze") sampleDict).map
        (fun st => (noteParse trivialExt st false false (str "Default") [] []
          sampleData []).2) = some (some CLOZE_ERROR)) ∧
    CLOZE_ERROR = 42 ∧
    ((mkNote (str "Basic\nFront: y\n<!--ID: 69-->") sampleDict).map
        (fun st => (noteParse trivialExt st false false (str "Default") [] []
          sampleData []).2) = some (some NOTE_TYPE_ERROR)) ∧
    ((mkNote (str "Mystery\nFront: x") sampleDict).map
        (fun st => (noteParse trivialExt st false false (str "Default") [] []
          sampleData []).2) = some (some NOTE_TYPE_ERROR)) ∧
    NOTE_TYPE_ERROR = 69 := by
  decide

theorem buildCreateRequests_flagged (r : AnkiNote × Option Nat) (n : Nat)
    (h : r.2 = some n) : buildCreateRequests [r] = [] := by
  unfold buildCreateRequests
  simp [h]

/-- Claim C3 counterexample: `RegexNote.parse` performs no cloze
validation — a regex-note record for schema `"Cloze"` whose formatted
fields contain no cloze markup is returned with its identifier unchanged
(here absent), not flagged with `CLOZE_ERROR`. -/
theorem regex_cloze_not_validated :
    (regexParse trivialExt
        (mkRegexNote [some (str "some text, no cloze")] (str "Cloze")
          sampleDict false false)
        false false (str "Default") [] [] sampleData []).1.modelName
      = str "Cloze" ∧
    containsCloze (regexParse trivialExt
        (mkRegexNote [some (str "some text, no cloze")] (str "Cloze")
          sampleDict false false)
        false false (str "Default") [] [] sampleData []).1 = false ∧
    (regexParse trivialExt
        (mkRegexNote [some (str "some text, no cloze")] (str "Cloze")
          sampleDict false false)
        false false (str "Default") [] [] sampleData []).2
      ≠ some CLOZE_ERROR := by
  decide

/-- Claim C3 (amended): cloze validation is shared by the block-note and
inline-note parsers through `AbstractNote.parse` — a parsed record of a
registry-known schema whose final model name is `"Cloze"` and whose
formatted fields contain no cloze markup is flagged `CLOZE_ERROR` and
excluded from the create-request batch; `RegexNote.parse` performs no such
validation and returns its identifier unchanged. -/
theorem cloze_validation_block_inline (ext : Externals) (curly highlights : Bool)
    (deck url : Str) (frozen : List (Str × Str)) (data : FileData)
    (context : Str) :
    (∀ st : BlockNoteState, st.no_note_type = false →
      (noteParse ext st curly highlights deck url frozen data context).1.modelName
          = str "Cloze" →
      containsCloze
          (noteParse ext st curly highlights deck url frozen data context).1
          = false →
      (noteParse ext st curly highlights deck url frozen data context).2
          = some CLOZE_ERROR ∧
        buildCreateRequests
          [noteParse ext st curly highlights deck url frozen data context] = []) ∧
    (∀ st : InlineNoteState, st.no_note_type = false →
      (inlineParse ext st curly highlights deck url frozen data context).1.modelName
          = str "Cloze" →
      containsCloze
          (inlineParse ext st curly highlights deck url frozen data context).1
          = false →
      (inlineParse ext st curly highlights deck url frozen data context).2
          = some CLOZE_ERROR ∧
        buildCreateRequests
          [inlineParse ext st curly highlights deck url frozen data context] = []) := by
  constructor
  · intro st hno hm hc
    obtain ⟨t, ht⟩ := abstractParse_known_schema ext st.note_type st.identifier
      st.tags (noteGetFields ext st curly highlights) deck url frozen data context
    have hp : noteParse ext st curly highlights deck url frozen data context
        = finishParse st.identifier t := by
      unfold noteParse
      rw [hno]
      exact ht
    rw [hp] at hm hc ⊢
    have hflag := finishParse_cloze st.identifier t hm hc
    exact ⟨hflag, buildCreateRequests_flagged _ _ hflag⟩
  · intro st hno hm hc
    obtain ⟨t, ht⟩ := abstractParse_known_schema ext st.note_type st.identifier
      st.tags (inlineGetFields ext st curly highlights) deck url frozen data context
    have hp : inlineParse ext st curly highlights deck url frozen data context
        = finishParse st.identifier t := by
      unfold inlineParse
      rw [hno]
      exact ht
    rw [hp] at hm hc ⊢
    have hflag := finishParse_cloze st.identifier t hm hc
    exact ⟨hflag, buildCreateRequests_flagged _ _ hflag⟩

/-- Witness for claim C3 (amended) at concrete cloze-free `"Cloze"` block
and inline notes. -/
theorem cloze_validation_block_inline_witness :
    ((noteParse trivialExt clozeBlockSt false false (str "Default") [] []
        sampleData []).2 = some CLOZE_ERROR ∧
      buildCreateRequests [noteParse trivialExt clozeBlockSt false false
        (str "Default") [] [] sampleData []] = []) ∧
    ((inlineParse trivialExt clozeInlineSt false false (str "Default") [] []
        sampleData []).2 = some CLOZE_ERROR ∧
      buildCreateRequests [inlineParse trivialExt clozeInlineSt false false
        (str "Default") [] [] sampleData []] = []) := by
  have h := cloze_validation_block_inline trivialExt false false
    (str "Default") [] [] sampleData []
  exact ⟨h.1 clozeBlockSt (by decide) (by decide) (by decide),
    h.2 clozeInlineSt (by decide) (by decide) (by decide)⟩

/-- Claim C6: for a block-note span, a last line matching the ID pattern
is popped as the record's identifier and removed from the field text; when
no ID line is present, a last line matching the tag-prefix pattern is
popped as the record's tags; and the constructor's record state is built
from exactly these two pops. -/
theorem block_trailing_line_consumption :
    (∀ (lines : List Str) (last : Str), lines.getLast? = some last →
      (∀ i ds, idFind last = some (i, ds) →
        noteGetIdentifier lines = (some (digitsToNat ds), lines.dropLast)) ∧
      (idFind last = none → tagMarker.isPrefixOf last = true →
        (noteGetIdentifier lines).1 = none ∧
        noteGetTags lines
          = (splitOnChar ' ' (last.drop tagMarker.length), lines.dropLast))) ∧
    (∀ (text : Str) (fields_dict : List (Str × List Str)) (st : BlockNoteState),
      mkNote text fields_dict = some st →
      st.identifier = (noteGetIdentifier (splitOnChar '\n' (jsTrim text))).1 ∧
      st.tags
        = (noteGetTags (noteGetIdentifier (splitOnChar '\n' (jsTrim text))).2).1) := by
  constructor
  · intro lines last hlast
    constructor
    · intro i ds hid
      simp [noteGetIdentifier, hlast, hid]
    · intro hid htag
      constructor
      · simp [noteGetIdentifier, hlast, hid]
      · simp [noteGetTags, hlast, htag]
  · intro text fields_dict st hmk
    simp only [mkNote] at hmk
    split at hmk
    · exact absurd hmk (by simp)
    · split at hmk
      · rw [Option.some_inj] at hmk
        rw [← hmk]
        exact ⟨rfl, rfl⟩
      · rw [Option.some_inj] at hmk
        rw [← hmk]
        exact ⟨rfl, rfl⟩

/-- Witness for claim C6 at a concrete ID-terminated and a concrete
tag-terminated block. -/
theorem block_trailing_line_consumption_witness :
    noteGetIdentifier [str "Basic", str "Front: x", str "<!--ID: 42-->"]
      = (some 42, [str "Basic", str "Front: x"]) ∧
    ((noteGetIdentifier [str "Basic", str "Tags: a b"]).1 = none ∧
      noteGetTags [str "Basic", str "Tags: a b"]
        = ([str "a", str "b"], [str "Basic"])) := by
  refine ⟨?_, ?_⟩
  · exact (block_trailing_line_consumption.1 _ (str "<!--ID: 42-->")
      (by decide)).1 0 (str "42") (by decide)
  · exact (block_trailing_line_consumption.1 _ (str "Tags: a b")
      (by decide)).2 (by decide) (by decide)

/-- Claim C7: when create-response element `i` carries an error, the error
is caught and record `i` is left identifier-less (`none`, no bogus
identifier), and the processing of the other records of the file and of
the other files is unaffected by what sits in the erroneous slot. -/
theorem create_error_isolation (files : List (List (AnkiResponse Nat)))
    (j : Nat) (rs : List (AnkiResponse Nat)) (hj : files.get? j = some rs)
    (i : Nat) (r : AnkiResponse Nat) (hi : rs.get? i = some r)
    (e : Str) (herr : r.error = some e) (hwf : r.result = none) :
    (processCreateResponses rs).get? i = some none ∧
    (processAllCreateResponses files).get? j
      = some (processCreateResponses rs) ∧
    (∀ (r' : AnkiResponse Nat) (i' : Nat), i' ≠ i →
      (processCreateResponses (rs.set i r')).get? i'
        = (processCreateResponses rs).get? i') ∧
    (∀ (fs' : List (AnkiResponse Nat)) (j' : Nat), j' ≠ j →
      (processAllCreateResponses (files.set j fs')).get? j'
        = (processAllCreateResponses files).get? j') := by
  refine ⟨?_, ?_, ?_, ?_⟩
  · unfold processCreateResponses
    rw [List.get?_map, hi, Option.map_some']
    unfold ankiParse
    rw [herr, hwf]
  · unfold processAllCreateResponses
    rw [List.get?_map, hj, Option.map_some']
  · intro r' i' hne
    unfold processCreateResponses
    rw [List.get?_map, List.get?_map, List.get?_set_ne _ _ (fun h => hne h.symm)]
  · intro fs' j' hne
    unfold processAllCreateResponses
    rw [List.get?_map, List.get?_map, List.get?_set_ne _ _ (fun h => hne h.symm)]

/-- Witness for claim C7 at a concrete three-element response batch with
an error in the middle. -/
theorem create_error_isolation_witness :
    (processCreateResponses
        [⟨some 1, none⟩, ⟨none, some (str "boom")⟩, ⟨some 3, none⟩]).get? 1
      = some none ∧
    (processAllCreateResponses
        [[⟨some 1, none⟩, ⟨none, some (str "boom")⟩, ⟨some 3, none⟩]]).get? 0
      = some (processCreateResponses
        [⟨some 1, none⟩, ⟨none, some (str "boom")⟩, ⟨some 3, none⟩]) := by
  have h := create_error_isolation
    [[⟨some 1, none⟩, ⟨none, some (str "boom")⟩, ⟨some 3, none⟩]] 0
    [⟨some 1, none⟩, ⟨none, some (str "boom")⟩, ⟨some 3, none⟩] (by decide)
    1 ⟨none, some (str "boom")⟩ (by decide) (str "boom") (by decide) (by decide)
  exact ⟨h.1, h.2.1⟩

/-- Claim C8: a processed document is written back iff its rewritten text
differs from the original — one whose rewritten text equals the original
is never written — and an insertion rewrite preserves the text outside the
touched position byte-identically. -/
theorem writeback_iff_changed (rewriteFile : OwnFileState → Str)
    (files : List OwnFileState)
    (hnd : (files.map OwnFileState.path).Nodup) :
    (∀ f ∈ files,
      (∃ t, (f.path, t) ∈ writeBackActions rewriteFile files) ↔
        rewriteFile f ≠ f.original_file) ∧
    (∀ (text ins : Str) (p : Nat), p ≤ text.length →
      (insertAt text ins p).take p = text.take p ∧
      (insertAt text ins p).drop (p + ins.length) = text.drop p) := by
  constructor
  · intro f hf
    constructor
    · rintro ⟨t, ht⟩
      rcases List.mem_filterMap.mp ht with ⟨g, hg, hgt⟩
      by_cases hch : rewriteFile g = g.original_file
      · rw [if_pos hch] at hgt
        cases hgt
      · rw [if_neg hch] at hgt
        have hgp : g.path = f.path := congrArg Prod.fst (Option.some_inj.mp hgt)
        have hgf : g = f := List.inj_on_of_nodup_map hnd hg hf hgp
        rw [← hgf]
        exact hch
    · intro hch
      refine ⟨rewriteFile f, List.mem_filterMap.mpr ⟨f, hf, ?_⟩⟩
      rw [if_neg hch]
  · intro text ins p hp
    have hlen : (text.take p).length = p := List.length_take_of_le hp
    constructor
    · unfold insertAt
      rw [List.append_assoc]
      rw [List.take_append_of_le_length (by rw [hlen])]
      rw [List.take_of_length_le (by rw [hlen])]
    · unfold insertAt
      have hlen2 : ((text.take p) ++ ins).length = p + ins.length := by
        rw [List.length_append, hlen]
      rw [List.drop_append_of_le_length (by rw [hlen2])]
      rw [List.drop_of_length_le (by rw [hlen2]), List.nil_append]

/-- Witness for claim C8 at a concrete two-file batch, one changed and one
unchanged. -/
theorem writeback_iff_changed_witness :
    ((∃ t, (str "a", t) ∈ writeBackActions (fun f => f.file ++ str "!")
        [⟨str "a", str "x", str "x"⟩]) ↔
      (fun (f : OwnFileState) => f.file ++ str "!") ⟨str "a", str "x", str "x"⟩
        ≠ (⟨str "a", str "x", str "x"⟩ : OwnFileState).original_file) ∧
    (insertAt (str "hello") (str "ID") 2).take 2 = (str "hello").take 2 := by
  have h := writeback_iff_changed (fun f => f.file ++ str "!")
    [⟨str "a", str "x", str "x"⟩] (by decide)
  exact ⟨h.1 ⟨str "a", str "x", str "x"⟩ (by decide),
    (h.2 (str "hello") (str "ID") 2 (by decide)).1⟩

theorem mem_map_fst_cons {α : Type} (kv : Str × α) (rest : List (Str × α))
    (k : Str) (h : k ∈ ((kv :: rest).map Prod.fst))
    (hne : ¬(kv.1 == k) = true) : k ∈ rest.map Prod.fst := by
  rw [List.map_cons] at h
  rcases List.mem_cons.mp h with hc | hc
  · exact absurd (beq_iff_eq.mpr hc.symm) hne
  · exact hc

theorem lookupD_eq_none_iff {α : Type} (m : List (Str × α)) (k : Str) :
    lookupD m k = none ↔ k ∉ m.map Prod.fst := by
  induction m with
  | nil => simp [lookupD]
  | cons kv rest ih =>
      rw [lookupD_cons]
      by_cases h : (kv.1 == k) = true
      · have he := eq_of_beq h
        rw [if_pos h]
        constructor
        · intro hc
          cases hc
        · intro hc
          exact absurd
            (he ▸ List.mem_map_of_mem Prod.fst (List.mem_cons_self kv rest)) hc
      · have hne : kv.1 ≠ k := fun hc => h (beq_iff_eq.mpr hc)
        rw [if_neg h, ih]
        rw [List.map_cons]
        simp only [List.mem_cons, not_or]
        constructor
        · intro hn
          exact ⟨fun hc => hne hc.symm, hn⟩
        · intro hn
          exact hn.2

theorem map_fst_setD_mem {α : Type} (m : List (Str × α)) (k : Str) (v : α)
    (h : k ∈ m.map Prod.fst) :
    (setD m k v).map Prod.fst = m.map Prod.fst := by
  induction m with
  | nil => cases h
  | cons kv rest ih =>
      simp only [setD]
      by_cases hh : (kv.1 == k) = true
      · rw [if_pos hh]
        simp only [List.map_cons]
        rw [eq_of_beq hh]
      · rw [if_neg hh]
        simp only [List.map_cons]
        rw [ih (mem_map_fst_cons kv rest k h hh)]

theorem setD_not_mem {α : Type} (m : List (Str × α)) (k : Str) (v : α)
    (h : k ∉ m.map Prod.fst) : setD m k v = m ++ [(k, v)] := by
  induction m with
  | nil => rfl
  | cons kv rest ih =>
      have h1 : ¬(kv.1 == k) = true := by
        intro hc
        exact h ((eq_of_beq hc) ▸
          List.mem_map_of_mem Prod.fst (List.mem_cons_self kv rest))
      have h2 : k ∉ rest.map Prod.fst := by
        intro hm
        exact h (by rw [List.map_cons]; exact List.mem_cons_of_mem kv.1 hm)
      simp only [setD]
      rw [if_neg h1, ih h2]
      rfl

theorem map_fst_jsAppendField_mem (m : List (Str × Str)) (k s : Str)
    (h : k ∈ m.map Prod.fst) :
    (jsAppendField m k s).map Prod.fst = m.map Prod.fst := by
  unfold jsAppendField
  cases hl : lookupD m k with
  | none => exact absurd h ((lookupD_eq_none_iff m k).mp hl)
  | some v => exact map_fst_setD_mem m k _ h

theorem map_fst_map_value (m : List (Str × Str)) (g : Str × Str → Str) :
    (m.map (fun kv => (kv.1, g kv))).map Prod.fst = m.map Prod.fst := by
  induction m with
  | nil => rfl
  | cons kv rest ih => simp [ih]

theorem foldl_setD_fresh (fns : List Str) (m : List (Str × Str))
    (hd : ∀ f ∈ fns, f ∉ m.map Prod.fst) (hnd : fns.Nodup) :
    fns.foldl (fun acc f => setD acc f []) m
      = m ++ fns.map (fun f => (f, [])) := by
  induction fns generalizing m with
  | nil => simp
  | cons f rest ih =>
      simp only [List.nodup_cons] at hnd
      rw [List.foldl_cons]
      rw [show setD m f [] = m ++ [(f, [])] from setD_not_mem m f []
        (hd f (List.mem_cons_self f rest))]
      rw [ih (m ++ [(f, [])]) ?_ hnd.2]
      · simp
      · intro f' hf'
        simp only [List.map_append, List.mem_append]
        intro hc
        rcases hc with hc | hc
        · exact hd f' (List.mem_cons_of_mem f hf') hc
        · simp only [List.map_cons, List.map_nil, List.mem_singleton] at hc
          exact hnd.1 (hc ▸ hf')

theorem initFields_eq (fns : List Str) (hnd : fns.Nodup) :
    initFields fns = fns.map (fun f => (f, [])) := by
  unfold initFields
  rw [foldl_setD_fresh fns [] (by simp) hnd]
  rfl

theorem countKey_append (m₁ m₂ : List (Str × Str)) (k : Str) :
    countKey (m₁ ++ m₂) k = countKey m₁ k + countKey m₂ k := by
  unfold countKey
  rw [List.filter_append, List.length_append]

theorem countKey_setD_mem (m : List (Str × Str)) (k : Str) (v : Str)
    (h : k ∈ m.map Prod.fst) (k' : Str) :
    countKey (setD m k v) k' = countKey m k' := by
  induction m with
  | nil => cases h
  | cons kv rest ih =>
      simp only [setD]
      by_cases hh : (kv.1 == k) = true
      · rw [if_pos hh]
        have he := eq_of_beq hh
        unfold countKey
        rw [List.filter_cons, List.filter_cons, he]
        by_cases hkk : (k == k') = true <;> simp [hkk]
      · rw [if_neg hh]
        have iht := ih (mem_map_fst_cons kv rest k h hh)
        unfold countKey at iht ⊢
        rw [List.filter_cons, List.filter_cons]
        by_cases hkv : (kv.1 == k') = true <;> simp [hkv, iht]

theorem countKey_map_value (m : List (Str × Str)) (g : Str × Str → Str)
    (k : Str) :
    countKey (m.map (fun kv => (kv.1, g kv))) k = countKey m k := by
  induction m with
  | nil => rfl
  | cons kv rest ih =>
      unfold countKey at *
      simp only [List.map_cons, List.filter_cons]
      by_cases hkv : (kv.1 == k) = true <;> simp [hkv, ih]

theorem countKey_map_pair_not_mem (fns : List Str) (f : Str) (hf : f ∉ fns) :
    countKey (fns.map (fun g => (g, ([] : Str)))) f = 0 := by
  induction fns with
  | nil => rfl
  | cons g rest ih =>
      simp only [List.mem_cons, not_or] at hf
      have hg : ¬(g == f) = true := fun hc => hf.1 (eq_of_beq hc).symm
      unfold countKey at *
      simp only [List.map_cons, List.filter_cons]
      simp only [hg, Bool.false_eq_true, if_false]
      exact ih hf.2

theorem countKey_map_pair_nodup (fns : List Str) (hnd : fns.Nodup) (f : Str)
    (hf : f ∈ fns) :
    countKey (fns.map (fun g => (g, ([] : Str)))) f = 1 := by
  induction fns with
  | nil => cases hf
  | cons g rest ih =>
      simp only [List.nodup_cons] at hnd
      rcases List.mem_cons.mp hf with he | hm
      · have hg : (g == f) = true := beq_iff_eq.mpr he.symm
        have hrest : countKey (rest.map (fun g => (g, ([] : Str)))) f = 0 :=
          countKey_map_pair_not_mem rest f (fun hc => hnd.1 (he ▸ hc))
        unfold countKey at *
        simp only [List.map_cons, List.filter_cons]
        simp only [hg, if_true, List.length_cons, hrest]
      · have hg : ¬(g == f) = true := by
          intro hc
          exact hnd.1 ((eq_of_beq hc) ▸ hm)
        unfold countKey at *
        simp only [List.map_cons, List.filter_cons]
        simp only [hg, Bool.false_eq_true, if_false]
        exact ih hnd.2 hm

theorem countKey_pos_mem (m : List (Str × Str)) (k : Str)
    (h : 1 ≤ countKey m k) : k ∈ m.map Prod.fst := by
  by_contra hc
  have := (lookupD_eq_none_iff m k).mpr hc
  induction m with
  | nil => simp [countKey] at h
  | cons kv rest ih =>
      unfold countKey at h
      rw [List.filter_cons] at h
      by_cases hkv : (kv.1 == k) = true
      · exact hc (by simp [eq_of_beq hkv])
      · simp only [hkv, Bool.false_eq_true, if_false] at h
        have hcr : k ∉ rest.map Prod.fst := by
          intro hm
          exact hc (by simp [hm])
        exact ih h hcr ((lookupD_eq_none_iff rest k).mpr hcr)

theorem fieldFromLine_snd_mem (fns : List Str) (cur line : Str)
    (hcur : cur ∈ fns) : (fieldFromLine fns cur line).2 ∈ fns := by
  unfold fieldFromLine
  cases hf : fns.find? (fun f => (f ++ str ":").isPrefixOf line) with
  | none => exact hcur
  | some f => exact List.mem_of_find?_eq_some hf

theorem foldl_keys_invariant (fns : List Str)
    (step : (List (Str × Str) × Str) → Str → (List (Str × Str) × Str))
    (hstep : ∀ (m : List (Str × Str)) (cur x : Str), m.map Prod.fst = fns →
      cur ∈ fns →
      ((step (m, cur) x).1.map Prod.fst = fns ∧ (step (m, cur) x).2 ∈ fns))
    (xs : List Str) : ∀ (m : List (Str × Str)) (cur : Str),
    m.map Prod.fst = fns → cur ∈ fns →
    ((xs.foldl step (m, cur)).1.map Prod.fst = fns ∧
      (xs.foldl step (m, cur)).2 ∈ fns) := by
  induction xs with
  | nil =>
      intro m cur hm hcur
      exact ⟨hm, hcur⟩
  | cons x rest ih =>
      intro m cur hm hcur
      rw [List.foldl_cons]
      have hs := hstep m cur x hm hcur
      exact ih (step (m, cur) x).1 (step (m, cur) x).2 hs.1 hs.2

theorem noteFieldStep_inv (fns : List Str) (m : List (Str × Str)) (cur x : Str)
    (hm : m.map Prod.fst = fns) (hcur : cur ∈ fns) :
    ((noteFieldStep fns (m, cur) x).1.map Prod.fst = fns ∧
      (noteFieldStep fns (m, cur) x).2 ∈ fns) := by
  have hmem : (fieldFromLine fns cur x).2 ∈ fns :=
    fieldFromLine_snd_mem fns cur x hcur
  unfold noteFieldStep
  constructor
  · rw [map_fst_jsAppendField_mem _ _ _ (by rw [hm]; exact hmem)]
    exact hm
  · exact hmem

theorem inlineFieldStep_inv (fns : List Str) (m : List (Str × Str))
    (cur x : Str) (hm : m.map Prod.fst = fns) (hcur : cur ∈ fns) :
    ((inlineFieldStep fns (m, cur) x).1.map Prod.fst = fns ∧
      (inlineFieldStep fns (m, cur) x).2 ∈ fns) := by
  cases hf : fns.find? (fun f => x == f ++ str ":") with
  | some f =>
      have hmem : f ∈ fns := List.mem_of_find?_eq_some hf
      simp only [inlineFieldStep, hf]
      constructor
      · rw [map_fst_jsAppendField_mem _ _ _ (by rw [hm]; exact hmem)]
        exact hm
      · exact hmem
  | none =>
      simp only [inlineFieldStep, hf]
      constructor
      · rw [map_fst_jsAppendField_mem _ _ _ (by rw [hm]; exact hcur)]
        exact hm
      · exact hcur

theorem initFields_keys (fns : List Str) (hnd : fns.Nodup) :
    (initFields fns).map Prod.fst = fns := by
  rw [initFields_eq fns hnd, List.map_map]
  rw [show (Prod.fst ∘ fun f : Str => (f, ([] : Str))) = id from rfl, List.map_id]

theorem noteGetFields_keys (ext : Externals) (st : BlockNoteState)
    (curly highlights : Bool) (hnd : st.field_names.Nodup)
    (hcur : st.current_field ∈ st.field_names) :
    (noteGetFields ext st curly highlights).map Prod.fst = st.field_names := by
  simp only [noteGetFields]
  rw [map_fst_map_value]
  exact (foldl_keys_invariant st.field_names (noteFieldStep st.field_names)
    (fun m cur x hm hc => noteFieldStep_inv st.field_names m cur x hm hc)
    (st.split_text.drop 1) (initFields st.field_names) st.current_field
    (initFields_keys st.field_names hnd) hcur).1

theorem inlineGetFields_keys (ext : Externals) (st : InlineNoteState)
    (curly highlights : Bool) (hnd : st.field_names.Nodup)
    (hcur : st.current_field ∈ st.field_names) :
    (inlineGetFields ext st curly highlights).map Prod.fst = st.field_names := by
  simp only [inlineGetFields]
  rw [map_fst_map_value]
  exact (foldl_keys_invariant st.field_names (inlineFieldStep st.field_names)
    (fun m cur x hm hc => inlineFieldStep_inv st.field_names m cur x hm hc)
    (splitOnChar ' ' st.text) (initFields st.field_names) st.current_field
    (initFields_keys st.field_names hnd) hcur).1

theorem countKey_singleton_ne (k v f : Str) (h : ¬(k == f) = true) :
    countKey [(k, v)] f = 0 := by
  unfold countKey
  simp [List.filter_cons, h]

theorem regex_fold_countKey (fns : List Str) (ps : List (Nat × Option Str)) :
    ∀ (acc : List (Str × Str)),
    (∀ f ∈ fns, countKey acc f = 1) → (∀ f ∈ fns, f ∈ acc.map Prod.fst) →
    ∀ f ∈ fns, countKey
      (ps.foldl (fun m p =>
        setD m ((fns.get? p.1).getD (str "undefined")) (p.2.getD [])) acc) f
      = 1 := by
  induction ps with
  | nil =>
      intro acc h1 _ f hf
      exact h1 f hf
  | cons p rest ih =>
      intro acc h1 h2 f hf
      rw [List.foldl_cons]
      by_cases hk : ((fns.get? p.1).getD (str "undefined")) ∈ acc.map Prod.fst
      · exact ih _
          (fun f' hf' => by rw [countKey_setD_mem acc _ _ hk f']; exact h1 f' hf')
          (fun f' hf' => by rw [map_fst_setD_mem acc _ _ hk]; exact h2 f' hf')
          f hf
      · rw [setD_not_mem acc _ _ hk]
        apply ih _ ?_ ?_ f hf
        · intro f' hf'
          rw [countKey_append, h1 f' hf', countKey_singleton_ne]
          intro hc
          exact hk ((eq_of_beq hc) ▸ h2 f' hf')
        · intro f' hf'
          rw [List.map_append]
          exact List.mem_append_left _ (h2 f' hf')

theorem initFields_countKey (fns : List Str) (hnd : fns.Nodup) (f : Str)
    (hf : f ∈ fns) : countKey (initFields fns) f = 1 := by
  rw [initFields_eq fns hnd]
  exact countKey_map_pair_nodup fns hnd f hf

theorem regexGetFields_countKey (ext : Externals) (st : RegexNoteState)
    (curly highlights : Bool) (hnd : st.field_names.Nodup) :
    ∀ f ∈ st.field_names,
      countKey (regexGetFields ext st curly highlights) f = 1 := by
  intro f hf
  simp only [regexGetFields]
  rw [countKey_map_value]
  exact regex_fold_countKey st.field_names (st.matchGroups.drop 1).enum
    (initFields st.field_names)
    (fun f' hf' => initFields_countKey st.field_names hnd f' hf')
    (fun f' hf' => by
      rw [initFields_keys st.field_names hnd]
      exact hf')
    f hf

theorem jsAppendField_head (k v s : Str) (m : List (Str × Str)) :
    jsAppendField ((k, v) :: m) k s = (k, v ++ s) :: m := by
  simp [jsAppendField, lookupD_cons, setD]

theorem fieldFromLine_unprefixed (A B line : Str)
    (hA : ¬((A ++ str ":").isPrefixOf line) = true)
    (hB : ¬((B ++ str ":").isPrefixOf line) = true) :
    fieldFromLine [A, B] A line = (line, A) := by
  have hfind : [A, B].find? (fun f => (f ++ str ":").isPrefixOf line) = none :=
    List.find?_eq_none.mpr (fun x hx => by
      rcases List.mem_cons.mp hx with h1 | h1
      · subst h1
        exact hA
      · rcases List.mem_cons.mp h1 with h2 | h2
        · subst h2
          exact hB
        · cases h2)
  unfold fieldFromLine
  rw [hfind]

theorem note_fold_unprefixed (A B : Str) (body : List Str) :
    ∀ v : Str, (∀ l ∈ body, fieldFromLine [A, B] A l = (l, A)) →
    body.foldl (noteFieldStep [A, B]) ([(A, v), (B, [])], A)
      = ([(A, v ++ (body.map (fun l => l ++ ['\n'])).flatten), (B, [])], A) := by
  induction body with
  | nil =>
      intro v _
      simp
  | cons l rest ih =>
      intro v hnp
      rw [List.foldl_cons]
      have hstep : noteFieldStep [A, B] ([(A, v), (B, [])], A) l
          = ([(A, v ++ (l ++ ['\n'])), (B, [])], A) := by
        simp only [noteFieldStep, hnp l (List.mem_cons_self l rest),
          jsAppendField_head]
      rw [hstep, ih _ (fun l' hl' => hnp l' (List.mem_cons_of_mem l hl'))]
      simp [List.append_assoc]

/-- Claim C5: every parser variant returns a field mapping with exactly
one entry per declared schema field, binding a field with no captured text
to the empty string; in particular, for a schema with fields `[A, B]` and
a block body with no field prefixes, `getFields` binds `A` to the entire
(formatted) body and `B` to the empty string. -/
theorem parser_field_completeness :
    (∀ (ext : Externals) (st : BlockNoteState) (curly highlights : Bool),
      st.field_names.Nodup → st.current_field ∈ st.field_names →
      (noteGetFields ext st curly highlights).map Prod.fst = st.field_names) ∧
    (∀ (ext : Externals) (st : InlineNoteState) (curly highlights : Bool),
      st.field_names.Nodup → st.current_field ∈ st.field_names →
      (inlineGetFields ext st curly highlights).map Prod.fst = st.field_names) ∧
    (∀ (ext : Externals) (st : RegexNoteState) (curly highlights : Bool),
      st.field_names.Nodup →
      ∀ f ∈ st.field_names,
        countKey (regexGetFields ext st curly highlights) f = 1) ∧
    (∀ (ext : Externals) (curly highlights : Bool) (A B nt : Str)
      (body : List Str),
      (∀ b1 b2, ext.format [] b1 b2 = []) →
      (∀ l ∈ body, ¬((A ++ str ":").isPrefixOf l) = true ∧
        ¬((B ++ str ":").isPrefixOf l) = true) →
      (A == B) = false →
      noteGetFields ext
        { split_text := nt :: body, identifier := none, tags := [],
          note_type := nt, no_note_type := false, field_names := [A, B],
          current_field := A } curly highlights
        = [(A, jsTrim (ext.format
            (jsTrim ((body.map (fun l => l ++ ['\n'])).flatten))
            (containsSub nt (str "Cloze") && curly) highlights)),
           (B, [])]) := by
  refine ⟨noteGetFields_keys, inlineGetFields_keys, regexGetFields_countKey, ?_⟩
  intro ext curly highlights A B nt body hfmt hnp hab
  have hinit : initFields [A, B] = [(A, []), (B, [])] := by
    simp [initFields, setD, hab]
  simp only [noteGetFields, List.drop_succ_cons, List.drop_zero]
  rw [hinit]
  rw [note_fold_unprefixed A B body []
    (fun l hl => fieldFromLine_unprefixed A B l (hnp l hl).1 (hnp l hl).2)]
  simp only [List.map_cons, List.map_nil, List.nil_append]
  rw [show jsTrim [] = [] from rfl, hfmt]
  rfl

/-- Witness for claim C5 at concrete block, inline and regex notes. -/
theorem parser_field_completeness_witness :
    (noteGetFields trivialExt basicBlockSt false false).map Prod.fst
      = [str "Front", str "Back"] ∧
    (inlineGetFields trivialExt basicInlineSt false false).map Prod.fst
      = [str "Front", str "Back"] ∧
    countKey (regexGetFields trivialExt
      (mkRegexNote [some (str "q")] (str "Basic") sampleDict false false)
      false false) (str "Front") = 1 ∧
    noteGetFields trivialExt
      { split_text := [str "Basic", str "hello"], identifier := none,
        tags := [], note_type := str "Basic", no_note_type := false,
        field_names := [str "A", str "B"], current_field := str "A" }
      false false
      = [(str "A", str "hello"), (str "B", [])] := by
  refine ⟨?_, ?_, ?_, ?_⟩
  · exact parser_field_completeness.1 trivialExt basicBlockSt false false
      (by decide) (by decide)
  · exact parser_field_completeness.2.1 trivialExt basicInlineSt false false
      (by decide) (by decide)
  · exact parser_field_completeness.2.2.1 trivialExt
      (mkRegexNote [some (str "q")] (str "Basic") sampleDict false false)
      false false (by decide) (str "Front") (by decide)
  · exact parser_field_completeness.2.2.2 trivialExt false false
      (str "A") (str "B") (str "Basic") [str "hello"]
      (fun b1 b2 => rfl) (by decide) (by decide)

end ObsidianToAnki
